import Mathlib

/-!
Shallow embedding of the data-aggregation stage of
`src/fraud_alert_dashboard.py`.

Tables are ordered lists of row structures.  Pandas operations are
modelled faithfully:

* `groupby(key, as_index=False).agg(...)` produces one row per distinct
  key, keys sorted ascending (pandas default `sort=True`);
* `merge` (inner, on the shared column) preserves the left frame's row
  order, each left row paired with all matching right rows in right order;
* `merge(how="left", indicator=True)` keeps unmatched left rows with a
  `left_only` indicator;
* `nlargest(5, col)` is a stable descending sort by `col` followed by
  taking the first five rows;
* `melt` stacks the chosen columns in column order.
-/

/-- A row of the `Customers` table (`SELECT cust_id, first_name, last_name,
salary_bracket FROM Customers`). -/
structure Customer where
  cust_id : Nat
  first_name : String
  last_name : String
  salary_bracket : String
deriving DecidableEq, Repr

/-- `Customers` after the derived column
`customers["customer"] = first_name + " " + last_name`, projected to
`customers[["cust_id","customer"]]` as every view uses it. -/
structure CustomerD where
  cust_id : Nat
  customer : String
deriving DecidableEq, Repr

/-- A row of the `Accounts` table (`account_no, cust_id, balance`). -/
structure Account where
  account_no : Nat
  cust_id : Nat
  balance : Int
deriving DecidableEq, Repr

/-- A row of the `Transactions` table
(`tid, t_type, amount, time::date AS day, source_acc_no, dest_acc_no`).
Dates are mapped to naturals preserving order. -/
structure Transaction where
  tid : Nat
  t_type : String
  amount : Int
  day : Nat
  source_acc_no : Nat
  dest_acc_no : Nat
deriving DecidableEq, Repr

/-- A row of the `CreditCards` table (`cust_id, outstanding`). -/
structure CreditCard where
  cust_id : Nat
  outstanding : Int
deriving DecidableEq, Repr

/-- A row of the `Sessions` table (`cust_id, session_id`). -/
structure Session where
  cust_id : Nat
  session_id : Nat
deriving DecidableEq, Repr

/-- `customers["customer"] = customers["first_name"] + " " + customers["last_name"]`,
then projection to the two columns the views consume. -/
def withDisplay (cs : List Customer) : List CustomerD :=
  cs.map (fun c => ⟨c.cust_id, c.first_name ++ " " ++ c.last_name⟩)

/-- Character-wise lexicographic order on strings (the order pandas uses to
sort string group keys), written so that it evaluates by kernel reduction. -/
def charsLe : List Char → List Char → Bool
  | [], _ => true
  | _ :: _, [] => false
  | a :: as, b :: bs =>
      if a.val < b.val then true
      else if b.val < a.val then false
      else charsLe as bs

/-- Lexicographic `≤` on strings as a Bool comparator. -/
def strLe (s t : String) : Bool := charsLe s.data t.data

/-- `≤` on naturals as a Bool comparator. -/
def natLe (a b : Nat) : Bool := a ≤ b

/-- Ascending insertion keeping later-inserted elements after equals. -/
def insertAsc (le : α → α → Bool) (x : α) : List α → List α
  | [] => [x]
  | y :: ys => if le x y then x :: y :: ys else y :: insertAsc le x ys

/-- Ascending insertion sort (models pandas `groupby` key ordering). -/
def sortAsc (le : α → α → Bool) : List α → List α
  | [] => []
  | y :: ys => insertAsc le y (sortAsc le ys)

/-- The distinct group keys of a column, in the ascending order pandas
`groupby(..., sort=True)` emits them. -/
def keysOf [DecidableEq β] (le : β → β → Bool) (l : List α) (key : α → β) : List β :=
  sortAsc le ((l.map key).dedup)

theorem insertAsc_perm (le : α → α → Bool) (x : α) :
    ∀ l : List α, List.Perm (insertAsc le x l) (x :: l)
  | [] => List.Perm.refl _
  | y :: ys => by
      unfold insertAsc
      by_cases h : le x y
      · simp [h]
      · simp only [if_neg h]
        exact ((insertAsc_perm le x ys).cons y).trans (List.Perm.swap x y ys)

theorem sortAsc_perm (le : α → α → Bool) :
    ∀ l : List α, List.Perm (sortAsc le l) l
  | [] => List.Perm.refl _
  | y :: ys => (insertAsc_perm le y (sortAsc le ys)).trans ((sortAsc_perm le ys).cons y)

theorem keysOf_nodup [DecidableEq β] (le : β → β → Bool) (l : List α) (key : α → β) :
    (keysOf le l key).Nodup :=
  ((sortAsc_perm _ _).nodup_iff).mpr (List.nodup_dedup _)

theorem mem_keysOf [DecidableEq β] (le : β → β → Bool) (l : List α) (key : α → β)
    (x : α) (hx : x ∈ l) : key x ∈ keysOf le l key := by
  have : key x ∈ (l.map key).dedup := by
    rw [List.mem_dedup]
    exact List.mem_map_of_mem key hx
  exact ((sortAsc_perm _ _).mem_iff).mpr this

/-- `transactions[["source_acc_no","dest_acc_no"]].melt(var_name="role",
value_name="account_no")`: the two account columns stacked in column
order, each value tagged with the column it came from. -/
def meltedTxnAccounts (ts : List Transaction) : List (String × Nat) :=
  ts.map (fun t => ("source_acc_no", t.source_acc_no))
    ++ ts.map (fun t => ("dest_acc_no", t.dest_acc_no))

/-- Whether account number `n` appears as source or destination of any
transaction in `ts`. -/
def txnAccount (ts : List Transaction) (n : Nat) : Bool :=
  ts.any (fun t => t.source_acc_no == n || t.dest_acc_no == n)

/-- The `_merge` indicator column added by `merge(..., indicator=True)`. -/
inductive MergeTag where
  | left_only : MergeTag
  | both : MergeTag
deriving DecidableEq, Repr

/-- A row of `accounts.merge(melted, how="left", indicator=True)`: the account
columns, the `role` column from the melted frame (absent when unmatched), and
the `_merge` indicator. -/
structure AccountMergeRow where
  account : Account
  role : Option String
  tag : MergeTag
deriving DecidableEq, Repr

/-- The left merge of `accounts` with the melted transaction accounts, with
indicator column: left row order preserved; an account with no matching melted
row yields a single `left_only` row, otherwise one `both` row per match. -/
def dormantMerged (accs : List Account) (ts : List Transaction) :
    List AccountMergeRow :=
  accs.flatMap (fun a =>
    let ms := (meltedTxnAccounts ts).filter (fun rv => rv.2 == a.account_no)
    if ms.isEmpty then [⟨a, none, MergeTag.left_only⟩]
    else ms.map (fun rv => ⟨a, some rv.1, MergeTag.both⟩))

/-- The dormant-accounts view: `.query("_merge == 'left_only'")` applied to
the indicator merge above. -/
def dormant (accs : List Account) (ts : List Transaction) : List AccountMergeRow :=
  (dormantMerged accs ts).filter (fun r => r.tag == MergeTag.left_only)

theorem melted_filter_eq_nil_iff (ts : List Transaction) (n : Nat) :
    (meltedTxnAccounts ts).filter (fun rv => rv.2 == n) = [] ↔
      txnAccount ts n = false := by
  simp only [List.filter_eq_nil_iff, meltedTxnAccounts, txnAccount,
    List.mem_append, List.mem_map, List.any_eq_false]
  constructor
  · intro h t ht
    have h1 := h (("source_acc_no", t.source_acc_no)) (Or.inl ⟨t, ht, rfl⟩)
    have h2 := h (("dest_acc_no", t.dest_acc_no)) (Or.inr ⟨t, ht, rfl⟩)
    simp only [beq_iff_eq] at h1 h2 ⊢
    simp [h1, h2]
  · intro h rv hrv
    rcases hrv with ⟨t, ht, rfl⟩ | ⟨t, ht, rfl⟩ <;>
      · have ht2 := h t ht
        simp only [Bool.or_eq_true, beq_iff_eq, not_or] at ht2
        simp [ht2.1, ht2.2]

/-- The dormant view is exactly the accounts whose number never appears in a
transaction, each as one unmodified `left_only` row. -/
theorem dormant_eq (accs : List Account) (ts : List Transaction) :
    dormant accs ts =
      (accs.filter (fun a => !txnAccount ts a.account_no)).map
        (fun a => ⟨a, none, MergeTag.left_only⟩) := by
  induction accs with
  | nil => rfl
  | cons a as ih =>
      simp only [dormant, dormantMerged, List.flatMap_cons, List.filter_append] at ih ⊢
      by_cases h : txnAccount ts a.account_no
      · have hne : ¬ ((meltedTxnAccounts ts).filter
            (fun rv => rv.2 == a.account_no)).isEmpty = true := by
          rw [List.isEmpty_iff, melted_filter_eq_nil_iff]
          simp [h]
        rw [if_neg hne, List.filter_map]
        have hz : ((meltedTxnAccounts ts).filter (fun rv => rv.2 == a.account_no)).filter
            ((fun r : AccountMergeRow => r.tag == MergeTag.left_only) ∘
              (fun rv => ⟨a, some rv.1, MergeTag.both⟩)) = [] := by
          simp [List.filter_eq_nil_iff]
        rw [hz, List.map_nil, List.nil_append,
          List.filter_cons_of_neg (by simp [h]), ih]
      · have he0 : (meltedTxnAccounts ts).filter (fun rv => rv.2 == a.account_no) = [] := by
          rw [melted_filter_eq_nil_iff]
          simp [h]
        have he : ((meltedTxnAccounts ts).filter
            (fun rv => rv.2 == a.account_no)).isEmpty = true := by
          rw [List.isEmpty_iff]
          exact he0
        rw [if_pos he, List.filter_cons_of_pos (by simp),
          List.filter_cons_of_pos (by simp [h])]
        simp only [List.filter_nil, List.map_cons, List.cons_append, List.nil_append]
        rw [ih]

/-- A row of `txn_by_type`: `groupby("t_type").agg(txn_count=("tid","size"),
total_amount=("amount","sum"))`. -/
structure TxnMixRow where
  t_type : String
  txn_count : Nat
  total_amount : Int
deriving DecidableEq, Repr

/-- The transaction-mix view: transactions grouped by type with per-type row
count and amount sum, groups in ascending key order. -/
def txn_by_type (ts : List Transaction) : List TxnMixRow :=
  (keysOf strLe ts (fun t => t.t_type)).map (fun k =>
    ⟨k, (ts.filter (fun t => t.t_type == k)).length,
      ((ts.filter (fun t => t.t_type == k)).map (fun t => t.amount)).sum⟩)

theorem sum_map_one (l : List α) : (l.map (fun _ => (1 : Nat))).sum = l.length := by
  induction l with
  | nil => rfl
  | cons x xs ih => simp [ih, Nat.add_comm]

/-- Partitioning a list by a key that ranges over a duplicate-free covering
key list splits any additive aggregate. -/
theorem sum_filter_key [DecidableEq β] [AddCommMonoid M] (key : α → β) (f : α → M) :
    ∀ (K : List β) (l : List α), K.Nodup → (∀ x ∈ l, key x ∈ K) →
      (K.map (fun k => ((l.filter (fun x => key x == k)).map f).sum)).sum
        = (l.map f).sum
  | [], l, _, hcov => by
      cases l with
      | nil => simp
      | cons x xs => exact absurd (hcov x (by simp)) (by simp)
  | k :: K, l, hnd, hcov => by
      have hknotin : k ∉ K := (List.nodup_cons.mp hnd).1
      have hndK : K.Nodup := (List.nodup_cons.mp hnd).2
      have hperm : List.Perm
          (l.filter (fun x => key x == k) ++ l.filter (fun x => !(key x == k))) l :=
        List.filter_append_perm _ l
      have hsum : (l.map f).sum
          = ((l.filter (fun x => key x == k)).map f).sum
            + ((l.filter (fun x => !(key x == k))).map f).sum := by
        have hs := (hperm.map f).sum_eq
        rw [List.map_append, List.sum_append] at hs
        exact hs.symm
      have hterm : ∀ k2 ∈ K,
          ((l.filter (fun x => key x == k2)).map f).sum
            = (((l.filter (fun x => !(key x == k))).filter
                (fun x => key x == k2)).map f).sum := by
        intro k2 hk2
        have hkk : k2 ≠ k := fun hkeq => hknotin (hkeq ▸ hk2)
        have hfe : (l.filter (fun x => !(key x == k))).filter (fun x => key x == k2)
            = l.filter (fun x => key x == k2) := by
          rw [List.filter_filter]
          apply List.filter_congr
          intro x hx
          by_cases hxk : key x = k2
          · simp [hxk, hkk]
          · simp [hxk]
        rw [hfe]
      have hcov2 : ∀ x ∈ l.filter (fun x => !(key x == k)), key x ∈ K := by
        intro x hx
        rw [List.mem_filter] at hx
        rcases List.mem_cons.mp (hcov x hx.1) with h1 | h1
        · exfalso
          simp [h1] at hx
        · exact h1
      have ih := sum_filter_key key f K (l.filter (fun x => !(key x == k))) hndK hcov2
      rw [List.map_cons, List.sum_cons, List.map_congr_left hterm, ih, hsum]

/-- The example transaction table of spec §8: three deposits of 10, 20, 30
and two withdrawals of 5, 15. -/
def exMixTxns : List Transaction :=
  [⟨1, "deposit", 10, 1, 101, 102⟩, ⟨2, "deposit", 20, 2, 101, 102⟩,
   ⟨3, "deposit", 30, 3, 101, 102⟩, ⟨4, "withdrawal", 5, 4, 101, 102⟩,
   ⟨5, "withdrawal", 15, 5, 101, 102⟩]

/-- C3: in the transaction-mix view, per-type counts sum to the total row
count and per-type amount totals sum to the total amount; the example of 3
deposits [10, 20, 30] and 2 withdrawals [5, 15] yields the rows
deposit(count 3, total 60) and withdrawal(count 2, total 20). -/
theorem C3_txn_mix_conservation :
    (∀ ts : List Transaction,
        ((txn_by_type ts).map TxnMixRow.txn_count).sum = ts.length)
    ∧ (∀ ts : List Transaction,
        ((txn_by_type ts).map TxnMixRow.total_amount).sum
          = (ts.map Transaction.amount).sum)
    ∧ txn_by_type exMixTxns
        = [⟨"deposit", 3, 60⟩, ⟨"withdrawal", 2, 20⟩] := by
  refine ⟨?_, ?_, ?_⟩
  · intro ts
    have h := sum_filter_key (fun t : Transaction => t.t_type) (fun _ => (1 : Nat))
      (keysOf strLe ts (fun t => t.t_type)) ts
      (keysOf_nodup _ _ _) (fun x hx => mem_keysOf _ _ _ x hx)
    rw [sum_map_one] at h
    rw [txn_by_type, List.map_map, ← h]
    apply congrArg
    apply List.map_congr_left
    intro k hk
    simp [sum_map_one]
  · intro ts
    have h := sum_filter_key (fun t : Transaction => t.t_type) Transaction.amount
      (keysOf strLe ts (fun t => t.t_type)) ts
      (keysOf_nodup _ _ _) (fun x hx => mem_keysOf _ _ _ x hx)
    rw [txn_by_type, List.map_map, ← h]
    apply congrArg
    apply List.map_congr_left
    intro k hk
    rfl
  · decide

/-- Example account A1 of spec §8: balance 100, never transacting. -/
def exA1 : Account := ⟨1, 10, 100⟩

/-- Example account A2 of spec §8: balance 0, appears in a transaction. -/
def exA2 : Account := ⟨2, 20, 0⟩

/-- Example `Accounts` table [A1, A2] of spec §8. -/
def exAccounts : List Account := [exA1, exA2]

/-- Example transaction set of spec §8: A2 appears as source and destination,
A1 appears nowhere. -/
def exTxns : List Transaction := [⟨1, "transfer", 5, 1, 2, 2⟩]

/-- C1: the dormant view contains exactly the accounts whose number appears
in no transaction's source or destination column; in particular it is
disjoint from the transacting accounts, and on the A1/A2 example it contains
exactly A1 (balance 100). -/
theorem C1_dormant_view_exact :
    (∀ (accs : List Account) (ts : List Transaction),
        (dormant accs ts).map AccountMergeRow.account
          = accs.filter (fun a => !txnAccount ts a.account_no))
    ∧ (∀ (accs : List Account) (ts : List Transaction) (r : AccountMergeRow),
        r ∈ dormant accs ts → txnAccount ts r.account.account_no = false)
    ∧ dormant exAccounts exTxns = [⟨exA1, none, MergeTag.left_only⟩] := by
  refine ⟨?_, ?_, ?_⟩
  · intro accs ts
    rw [dormant_eq, List.map_map]
    exact List.map_id _
  · intro accs ts r hr
    rw [dormant_eq] at hr
    rcases List.mem_map.mp hr with ⟨a, ha, rfl⟩
    have h2 := (List.mem_filter.mp ha).2
    simpa using h2
  · decide

theorem C1_dormant_view_exact_witness :
    txnAccount exTxns
      ((⟨exA1, none, MergeTag.left_only⟩ : AccountMergeRow).account.account_no)
        = false :=
  C1_dormant_view_exact.2.1 exAccounts exTxns
    ⟨exA1, none, MergeTag.left_only⟩ (by decide)

/-- C10: every dormant row is an unmodified input account row, dormant
accounts are listed exactly once when the account table is duplicate-free,
and the intermediate melt indeed has two rows per transaction. -/
theorem C10_dormant_frame :
    (∀ (accs : List Account) (ts : List Transaction) (r : AccountMergeRow),
        r ∈ dormant accs ts → r.account ∈ accs ∧ r.role = none)
    ∧ (∀ (accs : List Account) (ts : List Transaction), accs.Nodup →
        ((dormant accs ts).map AccountMergeRow.account).Nodup)
    ∧ (∀ ts : List Transaction, (meltedTxnAccounts ts).length = 2 * ts.length) := by
  refine ⟨?_, ?_, ?_⟩
  · intro accs ts r hr
    rw [dormant_eq] at hr
    rcases List.mem_map.mp hr with ⟨a, ha, rfl⟩
    exact ⟨(List.mem_filter.mp ha).1, rfl⟩
  · intro accs ts hnd
    rw [dormant_eq, List.map_map]
    have hid : (accs.filter (fun a => !txnAccount ts a.account_no)).map
        (AccountMergeRow.account ∘ fun a => ⟨a, none, MergeTag.left_only⟩)
          = accs.filter (fun a => !txnAccount ts a.account_no) :=
      List.map_id _
    rw [hid]
    exact hnd.filter _
  · intro ts
    simp [meltedTxnAccounts, Nat.two_mul]

theorem C10_dormant_frame_witness :
    ((⟨exA1, none, MergeTag.left_only⟩ : AccountMergeRow).account ∈ exAccounts
        ∧ (⟨exA1, none, MergeTag.left_only⟩ : AccountMergeRow).role = none)
    ∧ ((dormant exAccounts exTxns).map AccountMergeRow.account).Nodup :=
  ⟨C10_dormant_frame.1 exAccounts exTxns ⟨exA1, none, MergeTag.left_only⟩ (by decide),
   C10_dormant_frame.2.1 exAccounts exTxns (by decide)⟩

theorem mem_keysOf_iff [DecidableEq β] (le : β → β → Bool) (l : List α) (key : α → β)
    (k : β) : k ∈ keysOf le l key ↔ ∃ x ∈ l, key x = k := by
  rw [keysOf, (sortAsc_perm _ _).mem_iff, List.mem_dedup, List.mem_map]

/-- A row of the `top_cardholders` view: grouped credit cards joined to
customer display names. -/
structure TopCardRow where
  cust_id : Nat
  total_outstanding : Int
  customer : String
deriving DecidableEq, Repr

/-- `creditcards.groupby("cust_id", as_index=False)
.agg(total_outstanding=("outstanding","sum"))`. -/
def cardGroups (cards : List CreditCard) : List (Nat × Int) :=
  (keysOf natLe cards (fun c => c.cust_id)).map (fun k =>
    (k, ((cards.filter (fun c => c.cust_id == k)).map
      (fun c => c.outstanding)).sum))

/-- Inner merge of a keyed frame with `customers[["cust_id","customer"]]`
on `cust_id`: left row order preserved, right matches in right order,
unmatched left rows dropped. -/
def mergeCustomers (rows : List (Nat × β)) (cs : List CustomerD) :
    List (Nat × β × String) :=
  rows.flatMap (fun r =>
    (cs.filter (fun c => c.cust_id == r.1)).map (fun c => (r.1, r.2, c.customer)))

/-- The merged cardholder frame before `nlargest`. -/
def mergedCardholders (cards : List CreditCard) (cs : List CustomerD) :
    List TopCardRow :=
  (mergeCustomers (cardGroups cards) cs).map (fun r => ⟨r.1, r.2.1, r.2.2⟩)

/-- Descending insertion placing the inserted element before every element of
equal key (so that earlier input rows precede later equal ones). -/
def insertDesc (f : α → Int) (x : α) : List α → List α
  | [] => [x]
  | y :: ys => if f y ≤ f x then x :: y :: ys else y :: insertDesc f x ys

/-- Stable descending sort by an integer column, the order `nlargest`
(with its default `keep="first"`) ranks rows in. -/
def sortDesc (f : α → Int) : List α → List α
  | [] => []
  | y :: ys => insertDesc f y (sortDesc f ys)

/-- The `top_cardholders` view: `.nlargest(5, "total_outstanding")` of the
merged cardholder frame. -/
def top_cardholders (cards : List CreditCard) (cs : List CustomerD) :
    List TopCardRow :=
  (sortDesc (fun r => r.total_outstanding) (mergedCardholders cards cs)).take 5

theorem insertDesc_perm (f : α → Int) (x : α) :
    ∀ l : List α, List.Perm (insertDesc f x l) (x :: l)
  | [] => List.Perm.refl _
  | y :: ys => by
      unfold insertDesc
      by_cases h : f y ≤ f x
      · simp [h]
      · simp only [if_neg h]
        exact ((insertDesc_perm f x ys).cons y).trans (List.Perm.swap x y ys)

theorem sortDesc_perm (f : α → Int) :
    ∀ l : List α, List.Perm (sortDesc f l) l
  | [] => List.Perm.refl _
  | y :: ys => (insertDesc_perm f y (sortDesc f ys)).trans ((sortDesc_perm f ys).cons y)

theorem insertDesc_pairwise (f : α → Int) (x : α) (l : List α)
    (h : List.Pairwise (fun a b => f b ≤ f a) l) :
    List.Pairwise (fun a b => f b ≤ f a) (insertDesc f x l) := by
  induction l with
  | nil => simp [insertDesc]
  | cons y ys ih =>
      rw [List.pairwise_cons] at h
      unfold insertDesc
      by_cases hc : f y ≤ f x
      · rw [if_pos hc]
        refine List.pairwise_cons.mpr ⟨?_, List.pairwise_cons.mpr h⟩
        intro z hz
        rcases List.mem_cons.mp hz with rfl | hz2
        · exact hc
        · exact le_trans (h.1 z hz2) hc
      · rw [if_neg hc]
        refine List.pairwise_cons.mpr ⟨?_, ih h.2⟩
        intro z hz
        rcases List.mem_cons.mp ((insertDesc_perm f x ys).mem_iff.mp hz) with rfl | hz2
        · exact le_of_lt (lt_of_not_le hc)
        · exact h.1 z hz2

theorem sortDesc_pairwise (f : α → Int) :
    ∀ l : List α, List.Pairwise (fun a b => f b ≤ f a) (sortDesc f l)
  | [] => List.Pairwise.nil
  | y :: ys => insertDesc_pairwise f y (sortDesc f ys) (sortDesc_pairwise f ys)

theorem filter_val_insertDesc (f : α → Int) (v : Int) (x : α) :
    ∀ l : List α,
      (insertDesc f x l).filter (fun a => f a == v)
        = if f x == v then x :: l.filter (fun a => f a == v)
          else l.filter (fun a => f a == v)
  | [] => by
      by_cases hp : f x == v <;> simp [insertDesc, List.filter, hp]
  | y :: ys => by
      unfold insertDesc
      by_cases hc : f y ≤ f x
      · rw [if_pos hc]
        by_cases hp : f x == v <;> simp [List.filter_cons, hp]
      · rw [if_neg hc]
        rw [List.filter_cons, List.filter_cons, filter_val_insertDesc f v x ys]
        by_cases hp : f x == v
        · have hyv : ¬ (f y == v) = true := by
            have hxv : f x = v := by simpa using hp
            have : f x < f y := lt_of_not_le hc
            simp only [beq_iff_eq]
            omega
          simp [hp, hyv]
        · by_cases hy : f y == v <;> simp [hy, hp]

theorem filter_val_sortDesc (f : α → Int) (v : Int) :
    ∀ l : List α,
      (sortDesc f l).filter (fun a => f a == v) = l.filter (fun a => f a == v)
  | [] => rfl
  | y :: ys => by
      rw [sortDesc, filter_val_insertDesc f v y (sortDesc f ys),
        filter_val_sortDesc f v ys, List.filter_cons]

theorem filter_take (p : α → Bool) :
    ∀ (n : Nat) (l : List α), ∃ k, (l.take n).filter p = (l.filter p).take k
  | _, [] => ⟨0, by simp⟩
  | 0, _ :: _ => ⟨0, by simp⟩
  | n + 1, x :: xs => by
      obtain ⟨k, hk⟩ := filter_take p n xs
      by_cases hp : p x
      · exact ⟨k + 1, by simp [List.filter_cons, hp, hk]⟩
      · exact ⟨k, by simp [List.filter_cons, hp, hk]⟩

theorem mem_mergeCustomers (rows : List (Nat × β)) (cs : List CustomerD)
    (p : Nat × β × String) (hp : p ∈ mergeCustomers rows cs) :
    (p.1, p.2.1) ∈ rows ∧ ∃ c ∈ cs, c.cust_id = p.1 ∧ c.customer = p.2.2 := by
  rcases List.mem_flatMap.mp hp with ⟨g, hg, hpg⟩
  rcases List.mem_map.mp hpg with ⟨c, hc, rfl⟩
  have hcf := List.mem_filter.mp hc
  exact ⟨hg, c, hcf.1, by simpa using hcf.2, rfl⟩

theorem mem_mergedCardholders (cards : List CreditCard) (cs : List CustomerD)
    (r : TopCardRow) (hr : r ∈ mergedCardholders cards cs) :
    ∃ c ∈ cards, c.cust_id = r.cust_id := by
  rcases List.mem_map.mp hr with ⟨p, hp, rfl⟩
  have h1 := (mem_mergeCustomers _ cs p hp).1
  rcases List.mem_map.mp h1 with ⟨k, hk, heq⟩
  rcases (mem_keysOf_iff natLe cards (fun c => c.cust_id) k).mp hk with ⟨card, hcard, hkey⟩
  have hp1 : p.1 = k := by
    have := congrArg Prod.fst heq
    simpa using this.symm
  exact ⟨card, hcard, by simp [hp1, hkey]⟩

/-- C4: the top-cardholders view has at most five rows, is sorted descending
by outstanding sum, breaks ties by the merged frame's input order (its rows
of any fixed outstanding value are an order-preserving initial run of that
frame's), and only lists customers holding at least one credit card. -/
theorem C4_top_cardholders_shape :
    ∀ (cards : List CreditCard) (cs : List CustomerD),
      (top_cardholders cards cs).length ≤ 5
      ∧ List.Pairwise (fun a b => b.total_outstanding ≤ a.total_outstanding)
          (top_cardholders cards cs)
      ∧ (∀ r ∈ top_cardholders cards cs, ∃ c ∈ cards, c.cust_id = r.cust_id)
      ∧ (∀ v : Int, ∃ k,
          (top_cardholders cards cs).filter (fun r => r.total_outstanding == v)
            = ((mergedCardholders cards cs).filter
                (fun r => r.total_outstanding == v)).take k) := by
  intro cards cs
  refine ⟨List.length_take_le _ _, ?_, ?_, ?_⟩
  · exact List.Pairwise.sublist (List.take_sublist _ _) (sortDesc_pairwise _ _)
  · intro r hr
    have hr2 : r ∈ sortDesc (fun r => r.total_outstanding) (mergedCardholders cards cs) :=
      (List.take_sublist _ _).subset hr
    have hr3 : r ∈ mergedCardholders cards cs := (sortDesc_perm _ _).subset hr2
    exact mem_mergedCardholders cards cs r hr3
  · intro v
    obtain ⟨k, hk⟩ := filter_take (fun r : TopCardRow => r.total_outstanding == v) 5
      (sortDesc (fun r => r.total_outstanding) (mergedCardholders cards cs))
    rw [filter_val_sortDesc] at hk
    exact ⟨k, hk⟩

/-- A one-card, one-customer instance used to witness the view lemmas. -/
def exCards : List CreditCard := [⟨1, 50⟩]

/-- The display-name frame for the one-customer instance. -/
def exCustD : List CustomerD := [⟨1, "Ann Lee"⟩]

theorem C4_top_cardholders_shape_witness :
    ∃ c ∈ exCards, c.cust_id = (⟨1, 50, "Ann Lee"⟩ : TopCardRow).cust_id :=
  (C4_top_cardholders_shape exCards exCustD).2.2.1 ⟨1, 50, "Ann Lee"⟩ (by decide)

/-- A row of the `multi_session` view. -/
structure MultiSessionRow where
  cust_id : Nat
  session_count : Nat
  customer : String
deriving DecidableEq, Repr

/-- `sessions.groupby("cust_id", as_index=False)
.agg(session_count=("session_id","size"))`. -/
def sessionGroups (ss : List Session) : List (Nat × Nat) :=
  (keysOf natLe ss (fun s => s.cust_id)).map (fun k =>
    (k, (ss.filter (fun s => s.cust_id == k)).length))

/-- The `multi_session` view: session counts per customer, kept when
`session_count > 1`, inner-joined to display names. -/
def multi_session (ss : List Session) (cs : List CustomerD) :
    List MultiSessionRow :=
  (mergeCustomers ((sessionGroups ss).filter (fun g => 1 < g.2)) cs).map
    (fun r => ⟨r.1, r.2.1, r.2.2⟩)

/-- C7: every row of the multi-session view has session count strictly
greater than one and belongs to a customer with at least one session (so
zero-session customers cannot appear). -/
theorem C7_multi_session_threshold :
    ∀ (ss : List Session) (cs : List CustomerD) (r : MultiSessionRow),
      r ∈ multi_session ss cs →
        1 < r.session_count ∧ ∃ s ∈ ss, s.cust_id = r.cust_id := by
  intro ss cs r hr
  rcases List.mem_map.mp hr with ⟨p, hp, rfl⟩
  have h1 := (mem_mergeCustomers _ cs p hp).1
  have h2 := List.mem_filter.mp h1
  constructor
  · simpa using h2.2
  · rcases List.mem_map.mp h2.1 with ⟨k, hk, heq⟩
    rcases (mem_keysOf_iff natLe ss (fun s => s.cust_id) k).mp hk with ⟨s, hs, hkey⟩
    have hp1 : p.1 = k := by
      have := congrArg Prod.fst heq
      simpa using this.symm
    exact ⟨s, hs, by simp [hp1, hkey]⟩

/-- A two-session customer instance used to witness the session lemmas. -/
def exSessions : List Session := [⟨1, 100⟩, ⟨1, 101⟩]

theorem C7_multi_session_threshold_witness :
    1 < (⟨1, 2, "Ann Lee"⟩ : MultiSessionRow).session_count
      ∧ ∃ s ∈ exSessions, s.cust_id = (⟨1, 2, "Ann Lee"⟩ : MultiSessionRow).cust_id :=
  C7_multi_session_threshold exSessions exCustD ⟨1, 2, "Ann Lee"⟩ (by decide)

/-- Credit cards for six customers; customer 6 has the largest outstanding
sum but is missing from the customer table below. -/
def exCards9 : List CreditCard :=
  [⟨1, 10⟩, ⟨2, 20⟩, ⟨3, 30⟩, ⟨4, 40⟩, ⟨5, 45⟩, ⟨6, 1000⟩]

/-- Customer display names for customers 1-5 only (6 violates the
foreign-key assumption). -/
def exCust9 : List CustomerD :=
  [⟨1, "Ann A"⟩, ⟨2, "Bob B"⟩, ⟨3, "Cal C"⟩, ⟨4, "Dan D"⟩, ⟨5, "Eve E"⟩]

/-- C9: the inner joins silently drop grouped rows whose `cust_id` is absent
from `Customers` in both the top-cardholders and multi-session views; the
drop precedes the top-5 cut, so cardholder 6 with the largest outstanding
sum (1000) is excluded from the top-5 even though it tops `cardGroups`. -/
theorem C9_inner_join_drop :
    (∀ (cards : List CreditCard) (cs : List CustomerD) (r : TopCardRow),
        r ∈ top_cardholders cards cs → r.cust_id ∈ cs.map CustomerD.cust_id)
    ∧ (∀ (ss : List Session) (cs : List CustomerD) (r : MultiSessionRow),
        r ∈ multi_session ss cs → r.cust_id ∈ cs.map CustomerD.cust_id)
    ∧ cardGroups exCards9 = [(1, 10), (2, 20), (3, 30), (4, 40), (5, 45), (6, 1000)]
    ∧ top_cardholders exCards9 exCust9
        = [⟨5, 45, "Eve E"⟩, ⟨4, 40, "Dan D"⟩, ⟨3, 30, "Cal C"⟩,
           ⟨2, 20, "Bob B"⟩, ⟨1, 10, "Ann A"⟩] := by
  refine ⟨?_, ?_, by decide, by decide⟩
  · intro cards cs r hr
    have hr3 : r ∈ mergedCardholders cards cs :=
      (sortDesc_perm _ _).subset ((List.take_sublist _ _).subset hr)
    rcases List.mem_map.mp hr3 with ⟨p, hp, rfl⟩
    rcases (mem_mergeCustomers _ cs p hp).2 with ⟨c, hc, hcid, _⟩
    exact List.mem_map.mpr ⟨c, hc, by simpa using hcid⟩
  · intro ss cs r hr
    rcases List.mem_map.mp hr with ⟨p, hp, rfl⟩
    rcases (mem_mergeCustomers _ cs p hp).2 with ⟨c, hc, hcid, _⟩
    exact List.mem_map.mpr ⟨c, hc, by simpa using hcid⟩

theorem C9_inner_join_drop_witness :
    (⟨5, 45, "Eve E"⟩ : TopCardRow).cust_id ∈ exCust9.map CustomerD.cust_id :=
  C9_inner_join_drop.1 exCards9 exCust9 ⟨5, 45, "Eve E"⟩ (by decide)

/-- A row of the `last_txn` view. -/
structure LastTxnRow where
  cust_id : Nat
  last_time : Nat
  customer : String
deriving DecidableEq, Repr

/-- `transactions.merge(accounts[["account_no","cust_id"]]
.rename(columns={"account_no":"source_acc_no"}), how="left")`: each
transaction is paired with the `cust_id` of every account whose number
equals its source account; with no match it keeps a missing `cust_id`. -/
def txnWithCust (ts : List Transaction) (accs : List Account) :
    List (Transaction × Option Nat) :=
  ts.flatMap (fun t =>
    let ms := accs.filter (fun a => a.account_no == t.source_acc_no)
    if ms.isEmpty then [(t, none)]
    else ms.map (fun a => (t, some a.cust_id)))

/-- Maximum of a list of naturals (pandas `max` aggregate over a group). -/
def maxDay (l : List Nat) : Nat := l.foldr max 0

/-- `groupby("cust_id").agg(last_time=("day","max"))` over the merged frame;
pandas drops the missing-key rows from the grouping. -/
def lastTxnGroups (ts : List Transaction) (accs : List Account) :
    List (Nat × Nat) :=
  (keysOf natLe ((txnWithCust ts accs).filterMap (fun r => r.2)) id).map (fun k =>
    (k, maxDay (((txnWithCust ts accs).filter (fun r => r.2 == some k)).map
      (fun r => r.1.day))))

/-- The `last_txn` view: maximum transaction day per owning customer, joined
to display names. -/
def last_txn (ts : List Transaction) (accs : List Account) (cs : List CustomerD) :
    List LastTxnRow :=
  (mergeCustomers (lastTxnGroups ts accs) cs).map (fun r => ⟨r.1, r.2.1, r.2.2⟩)

theorem maxDay_le_iff : ∀ (l : List Nat) (n : Nat), maxDay l ≤ n ↔ ∀ d ∈ l, d ≤ n
  | [], n => by simp [maxDay]
  | x :: xs, n => by
      rw [maxDay, List.foldr_cons]
      have ih := maxDay_le_iff xs n
      rw [maxDay] at ih
      rw [max_le_iff, ih]
      simp

theorem le_maxDay (l : List Nat) (d : Nat) (hd : d ∈ l) : d ≤ maxDay l :=
  (maxDay_le_iff l (maxDay l)).mp le_rfl d hd

theorem maxDay_congr (l l2 : List Nat) (h : ∀ d, d ∈ l ↔ d ∈ l2) :
    maxDay l = maxDay l2 :=
  le_antisymm
    ((maxDay_le_iff l (maxDay l2)).mpr (fun d hd => le_maxDay l2 d ((h d).mp hd)))
    ((maxDay_le_iff l2 (maxDay l)).mpr (fun d hd => le_maxDay l d ((h d).mpr hd)))

theorem mem_txnWithCust_some (ts : List Transaction) (accs : List Account)
    (t : Transaction) (c : Nat) :
    (t, some c) ∈ txnWithCust ts accs ↔
      t ∈ ts ∧ ∃ a ∈ accs, a.account_no = t.source_acc_no ∧ a.cust_id = c := by
  rw [txnWithCust, List.mem_flatMap]
  constructor
  · rintro ⟨t2, ht2, hmem⟩
    by_cases he : (accs.filter (fun a => a.account_no == t2.source_acc_no)).isEmpty
    · rw [if_pos he] at hmem
      simp at hmem
    · rw [if_neg he] at hmem
      rcases List.mem_map.mp hmem with ⟨a, ha, heq⟩
      have hf := List.mem_filter.mp ha
      have h1 : t2 = t := congrArg Prod.fst heq
      have h2 : a.cust_id = c := Option.some.inj (congrArg Prod.snd heq)
      subst h1
      exact ⟨ht2, a, hf.1, by simpa using hf.2, h2⟩
  · rintro ⟨ht, a, ha, hno, hc⟩
    refine ⟨t, ht, ?_⟩
    have hafm : a ∈ accs.filter (fun a => a.account_no == t.source_acc_no) :=
      List.mem_filter.mpr ⟨ha, by simp [hno]⟩
    have hne : ¬ (accs.filter (fun a => a.account_no == t.source_acc_no)).isEmpty = true := by
      rw [List.isEmpty_iff]
      intro hnil
      rw [hnil] at hafm
      exact absurd hafm (List.not_mem_nil a)
    rw [if_neg hne]
    exact List.mem_map.mpr ⟨a, hafm, by rw [hc]⟩

theorem mem_lastTxnDays (ts : List Transaction) (accs : List Account)
    (k d : Nat) :
    (d ∈ ((txnWithCust ts accs).filter (fun r => r.2 == some k)).map
        (fun r => r.1.day))
      ↔ d ∈ (ts.filter (fun t => accs.any
          (fun a => a.account_no == t.source_acc_no && a.cust_id == k))).map
            (fun t => t.day) := by
  simp only [List.mem_map, List.mem_filter]
  constructor
  · rintro ⟨⟨t, o⟩, ⟨hr, hk⟩, rfl⟩
    have hk2 : o = some k := by simpa using hk
    subst hk2
    obtain ⟨ht, a, ha, hno, hc⟩ := (mem_txnWithCust_some ts accs t k).mp hr
    refine ⟨t, ⟨ht, ?_⟩, rfl⟩
    simp only [List.any_eq_true]
    exact ⟨a, ha, by simp [hno, hc]⟩
  · rintro ⟨t, ⟨ht, hany⟩, rfl⟩
    simp only [List.any_eq_true] at hany
    obtain ⟨a, ha, hcond⟩ := hany
    have hcond2 := hcond
    simp only [Bool.and_eq_true, beq_iff_eq] at hcond2
    refine ⟨(t, some k), ⟨?_, by simp⟩, rfl⟩
    exact (mem_txnWithCust_some ts accs t k).mpr ⟨ht, a, ha, hcond2.1, hcond2.2⟩

/-- C8: every row of the last-transaction view reports, for its customer,
the maximum day over exactly the transactions whose source account is an
account of that customer. -/
theorem C8_last_txn_max :
    ∀ (ts : List Transaction) (accs : List Account) (cs : List CustomerD)
      (r : LastTxnRow), r ∈ last_txn ts accs cs →
        r.last_time = maxDay ((ts.filter (fun t => accs.any
            (fun a => a.account_no == t.source_acc_no
              && a.cust_id == r.cust_id))).map (fun t => t.day)) := by
  intro ts accs cs r hr
  rcases List.mem_map.mp hr with ⟨p, hp, rfl⟩
  have h1 := (mem_mergeCustomers _ cs p hp).1
  rcases List.mem_map.mp h1 with ⟨k, hk, heq⟩
  have hp1 : p.1 = k := (congrArg Prod.fst heq).symm
  have h2 : p.2.1 = maxDay (((txnWithCust ts accs).filter
      (fun q => q.2 == some k)).map (fun q => q.1.day)) :=
    (congrArg (fun q : Nat × Nat => q.2) heq).symm
  show p.2.1 = _
  rw [h2]
  have hcongr := maxDay_congr
    (((txnWithCust ts accs).filter (fun q => q.2 == some k)).map (fun q => q.1.day))
    ((ts.filter (fun t => accs.any (fun a => a.account_no == t.source_acc_no
        && a.cust_id == k))).map (fun t => t.day))
    (fun d => mem_lastTxnDays ts accs k d)
  rw [hcongr]
  have : (⟨p.1, p.2.1, p.2.2⟩ : LastTxnRow).cust_id = k := hp1
  rw [this]

/-- Transactions for the C8 witness: two deposits from account 1 on days 5
and 9. -/
def exTxns8 : List Transaction :=
  [⟨1, "deposit", 10, 5, 1, 2⟩, ⟨2, "deposit", 10, 9, 1, 2⟩]

/-- Account 1 is owned by customer 7. -/
def exAccs8 : List Account := [⟨1, 7, 0⟩]

/-- Display name for customer 7. -/
def exCs8 : List CustomerD := [⟨7, "Gil G"⟩]

theorem C8_last_txn_max_witness :
    (⟨7, 9, "Gil G"⟩ : LastTxnRow).last_time
      = maxDay ((exTxns8.filter (fun t => exAccs8.any
          (fun a => a.account_no == t.source_acc_no
            && a.cust_id == (⟨7, 9, "Gil G"⟩ : LastTxnRow).cust_id))).map
              (fun t => t.day)) :=
  C8_last_txn_max exTxns8 exAccs8 exCs8 ⟨7, 9, "Gil G"⟩ (by decide)

/-- Python truthiness of the optional `sql` argument in
`elif POSTGRES_DSN and sql:` (must be present and non-empty). -/
def sqlTruthy : Option String → Bool
  | none => false
  | some s => !(s == "")

/-- `load_or_query(table, sql)`: prefer the local csv for the table; when it
is absent and both the DSN and the query are set, run the query against the
external store; otherwise raise
`FileNotFoundError(f"Need {table}.csv or a live DSN")`. -/
def load_or_query (table : String) (sql : Option String) (csvFile : Option α)
    (dsn : String) (runQuery : String → α) : Except String α :=
  match csvFile with
  | some df => Except.ok df
  | none =>
      if (!(dsn == "")) && sqlTruthy sql then Except.ok (runQuery (sql.getD ""))
      else Except.error ("Need " ++ table ++ ".csv or a live DSN")

/-- The fallback SQL passed for `Customers`. -/
def customersSql : String :=
  "SELECT cust_id, first_name, last_name, salary_bracket FROM Customers"

/-- The fallback SQL passed for `Accounts`. -/
def accountsSql : String := "SELECT account_no, cust_id, balance FROM Accounts"

/-- The fallback SQL passed for `Transactions` (dedented multi-line query). -/
def transactionsSql : String :=
  "\nSELECT tid, t_type, amount, time::date AS day,\n       source_acc_no, dest_acc_no\nFROM Transactions;\n"

/-- The fallback SQL passed for `CreditCards`. -/
def creditcardsSql : String := "SELECT cust_id, outstanding FROM CreditCards"

/-- The fallback SQL passed for `Sessions`. -/
def sessionsSql : String := "SELECT cust_id, session_id FROM Sessions"

/-- The five summary views the aggregation stage hands to presentation. -/
structure Views where
  txn_by_type : List TxnMixRow
  top_cardholders : List TopCardRow
  multi_session : List MultiSessionRow
  dormant : List AccountMergeRow
  last_txn : List LastTxnRow
deriving DecidableEq, Repr

/-- The aggregation stage: the derived `customer` column followed by the
five view derivations, exactly as the module body computes them. -/
def mkViews (customersRaw : List Customer) (accounts : List Account)
    (transactions : List Transaction) (creditcards : List CreditCard)
    (sessions : List Session) : Views :=
  let customers := withDisplay customersRaw
  { txn_by_type := txn_by_type transactions
    top_cardholders := top_cardholders creditcards customers
    multi_session := multi_session sessions customers
    dormant := dormant accounts transactions
    last_txn := last_txn transactions accounts customers }

/-- The data sources the module-level code can see: per-table local csv
contents (when the file exists), the `POSTGRES_DSN` constant, and the
result each fallback query would produce on the external store. -/
structure Env where
  customersCsv : Option (List Customer)
  accountsCsv : Option (List Account)
  transactionsCsv : Option (List Transaction)
  creditcardsCsv : Option (List CreditCard)
  sessionsCsv : Option (List Session)
  dsn : String
  qCustomers : List Customer
  qAccounts : List Account
  qTransactions : List Transaction
  qCreditcards : List CreditCard
  qSessions : List Session

/-- The table names passed to `load_or_query` at startup, in source order. -/
def loadedTables : List String :=
  ["Customers", "Accounts", "Transactions", "CreditCards", "Sessions"]

/-- The module body: load the five tables in order, then derive the views;
a load failure aborts before any aggregation. -/
def runDashboard (env : Env) : Except String Views := do
  let customers ← load_or_query "Customers" (some customersSql)
    env.customersCsv env.dsn (fun _ => env.qCustomers)
  let accounts ← load_or_query "Accounts" (some accountsSql)
    env.accountsCsv env.dsn (fun _ => env.qAccounts)
  let transactions ← load_or_query "Transactions" (some transactionsSql)
    env.transactionsCsv env.dsn (fun _ => env.qTransactions)
  let creditcards ← load_or_query "CreditCards" (some creditcardsSql)
    env.creditcardsCsv env.dsn (fun _ => env.qCreditcards)
  let sessions ← load_or_query "Sessions" (some sessionsSql)
    env.sessionsCsv env.dsn (fun _ => env.qSessions)
  pure (mkViews customers accounts transactions creditcards sessions)

/-- C2: the loader prefers the local file, falls back to the configured
store-plus-query, errors with a message naming the table when neither is
available, and such a failure makes the whole startup abort before any
aggregation output is produced. -/
theorem C2_loader_fallback :
    (∀ (α : Type) (table : String) (sql : Option String) (df : α) (dsn : String)
        (runQuery : String → α),
        load_or_query table sql (some df) dsn runQuery = Except.ok df)
    ∧ (∀ (α : Type) (table q dsn : String) (runQuery : String → α),
        dsn ≠ "" → q ≠ "" →
          load_or_query table (some q) none dsn runQuery = Except.ok (runQuery q))
    ∧ (∀ (α : Type) (table : String) (sql : Option String) (dsn : String)
        (runQuery : String → α),
        (dsn = "" ∨ sql = none ∨ sql = some "") →
          load_or_query table sql (none : Option α) dsn runQuery
            = Except.error ("Need " ++ table ++ ".csv or a live DSN"))
    ∧ (∀ env : Env, env.customersCsv = none → env.dsn = "" →
        runDashboard env = Except.error ("Need Customers.csv or a live DSN")) := by
  refine ⟨?_, ?_, ?_, ?_⟩
  · intro α table sql df dsn runQuery
    rfl
  · intro α table q dsn runQuery hd hq
    simp [load_or_query, sqlTruthy, hd, hq]
  · intro α table sql dsn runQuery h
    rcases h with h | h | h <;> simp [load_or_query, sqlTruthy, h]
  · intro env h1 h2
    simp [runDashboard, load_or_query, h1, h2, Bind.bind, Except.bind]

/-- An environment with no local files and no DSN. -/
def exEnvEmpty : Env := ⟨none, none, none, none, none, "", [], [], [], [], []⟩

theorem C2_loader_fallback_witness :
    load_or_query "T" (some "q") (none : Option Nat) "x" (fun _ => 3) = Except.ok 3
    ∧ load_or_query "T" none (none : Option Nat) "" (fun _ => 3)
        = Except.error ("Need " ++ "T" ++ ".csv or a live DSN")
    ∧ runDashboard exEnvEmpty = Except.error ("Need Customers.csv or a live DSN") :=
  ⟨C2_loader_fallback.2.1 Nat "T" "q" "x" (fun _ => 3) (by decide) (by decide),
   C2_loader_fallback.2.2.1 Nat "T" none "" (fun _ => 3) (Or.inl rfl),
   C2_loader_fallback.2.2.2 exEnvEmpty rfl rfl⟩

/-- C6 counterexample: the startup sequence loads five tables, and neither
`Loans` nor `LoanRequests` is among them, refuting the claimed seven-table,
seven-view startup. -/
theorem C6_counterexample :
    loadedTables.length = 5 ∧ "Loans" ∉ loadedTables
      ∧ "LoanRequests" ∉ loadedTables := by
  refine ⟨rfl, by decide, by decide⟩

/-- C6 (amended): on startup the program loads the five named tables
Customers, Accounts, Transactions, CreditCards, Sessions — in that order —
and, when all five local files are present, derives exactly the five summary
views of `mkViews` from them. -/
theorem C6_pipeline_five_tables :
    loadedTables = ["Customers", "Accounts", "Transactions", "CreditCards", "Sessions"]
    ∧ (∀ (env : Env) (c : List Customer) (a : List Account) (t : List Transaction)
        (cc : List CreditCard) (s : List Session),
        env.customersCsv = some c → env.accountsCsv = some a →
        env.transactionsCsv = some t → env.creditcardsCsv = some cc →
        env.sessionsCsv = some s →
        runDashboard env = Except.ok (mkViews c a t cc s)) := by
  refine ⟨rfl, ?_⟩
  intro env c a t cc s h1 h2 h3 h4 h5
  simp [runDashboard, load_or_query, h1, h2, h3, h4, h5, Bind.bind, Except.bind]
  rfl

/-- An environment whose five tables are present as (empty) local files. -/
def exEnvFiles : Env :=
  ⟨some [], some [], some [], some [], some [], "", [], [], [], [], []⟩

theorem C6_pipeline_five_tables_witness :
    runDashboard exEnvFiles = Except.ok (mkViews [] [] [] [] []) :=
  C6_pipeline_five_tables.2 exEnvFiles [] [] [] [] [] rfl rfl rfl rfl rfl

/-- Modelled from the spec: the loan-portfolio aggregation (spec §4.2 item 6,
§7, §8) has no implementation in `src/fraud_alert_dashboard.py`; following
the spec's words, a loan row carries the two monetary columns `principal`
and `paid`, as nonnegative rationals. -/
structure Loan where
  principal : NNRat
  paid : NNRat
deriving DecidableEq

/-- Modelled from the spec: "sum principal ... across all loans". -/
def totalPrincipal (loans : List Loan) : NNRat := (loans.map Loan.principal).sum

/-- Modelled from the spec: "sum paid across all loans". -/
def totalPaid (loans : List Loan) : NNRat := (loans.map Loan.paid).sum

/-- Modelled from the spec: "repayment ratio = total_paid / total_principal",
guarded by an explicit error when the total principal is zero ("must be
guarded explicitly", "raises a defined error, not NaN"). -/
def repaymentRatio (loans : List Loan) : Except String NNRat :=
  if totalPrincipal loans = 0 then Except.error "zero total principal"
  else Except.ok (totalPaid loans / totalPrincipal loans)

/-- C5: with positive total principal the repayment ratio is a well-defined
nonnegative (finite) rational; with zero total principal the computation
yields the defined error value rather than any numeric result. -/
theorem C5_repayment_ratio_guarded :
    (∀ loans : List Loan, 0 < totalPrincipal loans →
        repaymentRatio loans = Except.ok (totalPaid loans / totalPrincipal loans)
          ∧ 0 ≤ totalPaid loans / totalPrincipal loans)
    ∧ (∀ loans : List Loan, totalPrincipal loans = 0 →
        repaymentRatio loans = Except.error "zero total principal") := by
  constructor
  · intro loans h
    have hne : totalPrincipal loans ≠ 0 := ne_of_gt h
    rw [repaymentRatio, if_neg hne]
    exact ⟨rfl, zero_le _⟩
  · intro loans h
    rw [repaymentRatio, if_pos h]

/-- A single loan of principal 2 with 1 paid. -/
def exLoans : List Loan := [⟨2, 1⟩]

theorem C5_repayment_ratio_guarded_witness :
    (repaymentRatio exLoans
        = Except.ok (totalPaid exLoans / totalPrincipal exLoans)
      ∧ 0 ≤ totalPaid exLoans / totalPrincipal exLoans)
    ∧ repaymentRatio [] = Except.error "zero total principal" :=
  ⟨C5_repayment_ratio_guarded.1 exLoans (by norm_num [totalPrincipal, exLoans]),
   C5_repayment_ratio_guarded.2 [] rfl⟩
